import Mathlib

/-!
Verification of the model-promotion engine and serving validation of the
mbajk ML web service (`src/models/scripts/train_model.py`,
`src/models/scripts/predict_model.py`, `src/serve/routers/prediction.py`).

The MLflow model registry is embedded as a list of `(name, version, stage)`
records. `get_latest_versions(name, stages=[st])[0]` is embedded as the
maximal version number registered under `name` at stage `st` (MLflow's
"latest version at stage"), failing (IndexError) when none exists.
`transition_model_version_stage` rewrites the stage of the addressed
version. Model predictions and metric computation are external numeric
work; the pipelines are parametrised by the resulting mean-squared-error
values, and traces record which model/scaler was used in each call so that
dataflow claims can be stated.
-/

/-- Lifecycle stage of a registered artifact version. MLflow versions are
created at stage "None" and later transitioned. -/
inductive Stage where
  | noneStage
  | staging
  | production
deriving DecidableEq, Repr

/-- One registered model version: `(name, version, stage)`. -/
structure MV where
  name : String
  version : Nat
  stage : Stage
deriving DecidableEq, Repr

/-- The registry: the list of all registered model versions. -/
abbrev Registry := List MV

/-- Maximum of a list of naturals, `none` on the empty list. -/
def listMax : List Nat → Option Nat
  | [] => none
  | x :: xs =>
    match listMax xs with
    | none => some x
    | some m => some (max x m)

/-- Versions registered under `name` at stage `st`. -/
def versionsAt (r : Registry) (name : String) (st : Stage) : List Nat :=
  (r.filter (fun mv => decide (mv.name = name ∧ mv.stage = st))).map MV.version

/-- `client.get_latest_versions(name, stages=[st])[0].version`: the largest
version at stage `st`, or `none` when no version is at that stage. -/
def getLatestVersion (r : Registry) (name : String) (st : Stage) : Option Nat :=
  listMax (versionsAt r name st)

/-- `client.transition_model_version_stage(name, v, st)`. -/
def transitionStage (r : Registry) (name : String) (v : Nat) (st : Stage) : Registry :=
  r.map (fun mv => if mv.name = name ∧ mv.version = v then { mv with stage := st } else mv)

/-- The stage currently held by version `v` of `name`, `none` if that
version is not registered. -/
def stageOf (r : Registry) (name : String) (v : Nat) : Option Stage :=
  (r.find? (fun mv => decide (mv.name = name ∧ mv.version = v))).map MV.stage

/-- Registry name of a station's model: `"mbajk_station_" + str(station_number)`. -/
def modelName (station_number : Nat) : String :=
  "mbajk_station_" ++ toString station_number

/-- Registry name of a station's scaler:
`"mbajk_station_" + str(station_number) + "_scaler"`. -/
def scalerName (station_number : Nat) : String :=
  modelName station_number ++ "_scaler"

/-- A stage transition performed against the registry. -/
abbrev Transition := String × Nat × Stage

/-- `update_production_model` from `predict_model.py`: fetch the newest
staging versions of the station's model and scaler (IndexError, i.e.
`none`, if either is missing) and transition both to production. Returns
the new registry together with the transitions performed. -/
def update_production_model (r : Registry) (s : Nat) :
    Option (Registry × List Transition) :=
  match getLatestVersion r (modelName s) Stage.staging,
        getLatestVersion r (scalerName s) Stage.staging with
  | some new_model_version, some new_scaler_version =>
    let r1 := transitionStage r (modelName s) new_model_version Stage.production
    let r2 := transitionStage r1 (scalerName s) new_scaler_version Stage.production
    some (r2, [(modelName s, new_model_version, Stage.production),
               (scalerName s, new_scaler_version, Stage.production)])
  | _, _ => none

/-- Which model an evaluation or prediction call refers to: the freshly
trained staging candidate, or the current production model. -/
inductive ModelTag where
  | candidateM
  | productionM
deriving DecidableEq, Repr

/-- Which scaler a call was given: the staging candidate scaler or the
production scaler. -/
inductive ScalerTag where
  | candidateS
  | productionS
deriving DecidableEq, Repr

/-- Trace of the externally visible calls one `predict_model_pipeline` run
makes: the scaler passed to each `prepare_model_data` call, each
`model.predict(X)` call tagged with the scaler that produced `X`, each
`evaluate_model_performance` call with the scaler given for the inverse
transform, and every registry stage transition. -/
structure PredictTrace where
  prepareScalers : List ScalerTag
  predictCalls : List (ModelTag × ScalerTag)
  evalScalers : List (ModelTag × ScalerTag)
  transitions : List Transition
deriving DecidableEq, Repr

/-- Result of one `predict_model_pipeline` run. -/
structure PredictResult where
  registry : Registry
  trace : PredictTrace
deriving DecidableEq, Repr

/-- `predict_model_pipeline(station_number)` from `predict_model.py`,
parametrised by the candidate's and the production model's test MSE
(`mse_test`, `mse_production`; the latter is only consulted when a
production baseline exists). Loading the production model/scaler swallows
IndexError and yields `none`; loading the staging model/scaler does not,
so the run fails when either staging artifact is missing. `X_test` is
prepared once, with the staging scaler; the production model, when
present, is evaluated on that same `X_test` with the production scaler
passed only for the metric inverse transform. Promotion happens when no
production baseline exists, or when `mse_test < mse_production`. -/
def predict_model_pipeline (mse_test mse_production : ℚ) (r : Registry) (s : Nat) :
    Option PredictResult :=
  let production_model := getLatestVersion r (modelName s) Stage.production
  let production_scaler := getLatestVersion r (scalerName s) Stage.production
  match getLatestVersion r (modelName s) Stage.staging,
        getLatestVersion r (scalerName s) Stage.staging with
  | some _, some _ =>
    let prepareScalers := [ScalerTag.candidateS]
    let predictCalls := [(ModelTag.candidateM, ScalerTag.candidateS)]
    let evalScalers := [(ModelTag.candidateM, ScalerTag.candidateS)]
    if production_model.isNone || production_scaler.isNone then
      match update_production_model r s with
      | some (r2, ts) =>
        some ⟨r2, ⟨prepareScalers, predictCalls, evalScalers, ts⟩⟩
      | none => none
    else
      let predictCalls := predictCalls ++ [(ModelTag.productionM, ScalerTag.candidateS)]
      let evalScalers := evalScalers ++ [(ModelTag.productionM, ScalerTag.productionS)]
      if mse_test < mse_production then
        match update_production_model r s with
        | some (r2, ts) =>
          some ⟨r2, ⟨prepareScalers, predictCalls, evalScalers, ts⟩⟩
        | none => none
      else
        some ⟨r, ⟨prepareScalers, predictCalls, evalScalers, []⟩⟩
  | _, _ => none

/-- The version a fresh registration under `name` receives: one above the
largest existing version, starting from 1. -/
def nextVersion (r : Registry) (name : String) : Nat :=
  match listMax ((r.filter (fun mv => decide (mv.name = name))).map MV.version) with
  | none => 1
  | some m => m + 1

/-- `client.create_model_version(name, ...)` (also the implicit
registration a `log_model(..., registered_model_name=name)` call performs):
appends a fresh version at stage "None" and returns it. -/
def create_model_version (r : Registry) (name : String) : Registry × Nat :=
  let v := nextVersion r name
  (r ++ [⟨name, v, Stage.noneStage⟩], v)

/-- Result of one `train_model_pipeline` run: the new registry, the model
and scaler versions the run created with `create_model_version`, and the
stage transitions it performed. -/
structure TrainResult where
  registry : Registry
  modelVersion : Nat
  scalerVersion : Nat
  transitions : List Transition
deriving DecidableEq, Repr

/-- `train_model_pipeline(station_number)` from `train_model.py`, registry
effects only (the actual fitting is external numeric work). `log_keras_model`
with `registered_model_name` itself registers a version, then
`create_model_version` registers another and that one is transitioned to
staging; the scaler is handled the same way under the name with the
`"_scaler"` suffix. -/
def train_model_pipeline (r : Registry) (s : Nat) : TrainResult :=
  let r1 := (create_model_version r (modelName s)).1
  let step2 := create_model_version r1 (modelName s)
  let r3 := transitionStage step2.1 (modelName s) step2.2 Stage.staging
  let r4 := (create_model_version r3 (scalerName s)).1
  let step5 := create_model_version r4 (scalerName s)
  let r6 := transitionStage step5.1 (scalerName s) step5.2 Stage.staging
  ⟨r6, step2.2, step5.2,
   [(modelName s, step2.2, Stage.staging), (scalerName s, step5.2, Stage.staging)]⟩

/-- The batch loop shared by `main` in `train_model.py` and
`predict_model.py`: `for station_number in station_numbers: pipeline(...)`,
with no exception handling around the body. `step s = true` means the
per-station pipeline ran to completion, `false` that it raised. Returns
the stations whose pipeline was invoked, and whether the whole loop
completed. -/
def batchMainLoop (step : Nat → Bool) : List Nat → List Nat × Bool
  | [] => ([], true)
  | s :: rest =>
    if step s then
      let p := batchMainLoop step rest
      (s :: p.1, p.2)
    else
      ([s], false)

/-- The production model/scaler pair the serving layer works with: a
one-step predictor over a scaled window, the scaler transform and its
inverse. -/
structure MLModel where
  predictOne : List ℚ → ℚ
  scale : ℚ → ℚ
  invScale : ℚ → ℚ

/-- Modelled from the spec: `MLService.predict_multiple` (the Multi-step
Forecaster of §4.6) is not among the provided sources, only its call site
in `prediction.py` is. Per the spec: "scale the current window, predict
one step, append the (inverse-scaled) prediction to the output sequence,
slide the window forward by appending the new prediction as if it were an
observation, and repeat N times." This trace version records, for each of
the N steps, the window the step predicted from and the inverse-scaled
prediction. -/
def mlPredictTrace (m : MLModel) : List ℚ → Nat → List (List ℚ × ℚ)
  | _, 0 => []
  | w, Nat.succ k =>
    let y := m.invScale (m.predictOne (w.map m.scale))
    (w, y) :: mlPredictTrace m (w.drop 1 ++ [y]) k

/-- Modelled from the spec: the output sequence of `MLService.predict_multiple`
— the N inverse-scaled predictions of `mlPredictTrace`, in order. -/
def MLService.predict_multiple (m : MLModel) (w : List ℚ) (n : Nat) : List ℚ :=
  (mlPredictTrace m w n).map Prod.snd

/-- The request validation of the `predict_multiple` endpoint in
`src/serve/routers/prediction.py`, lines 17-24: returns the 400 detail
message of the first failing check, `none` when the request is accepted. -/
def validateRequest (station_number n_future : Int) : Option String :=
  if n_future < 1 then some "n_future must be greater than 0"
  else if n_future > 7 then some "n_future must be less than 8"
  else if station_number < 0 ∨ station_number > 29 then
    some "station_number must be between 0 and 28"
  else none

/-- The `predict_multiple` endpoint (`GET /mbajk/predict/{station_number}/{n_future}`):
validation first (an `HTTPException(400, detail)` is `.error (400, detail)`),
then the station's history is fetched and the forecaster is run. The
production model/scaler pair is `svc` (`none` when no production artifact
exists; the missing-artifact response is modelled from the spec's
"no production artifact" error condition, §4.6). -/
def predict_multiple (svc : Option MLModel) (history : List ℚ)
    (station_number n_future : Int) : Except (Nat × String) (List ℚ) :=
  match validateRequest station_number n_future with
  | some detail => Except.error (400, detail)
  | none =>
    match svc with
    | none => Except.error (404, "no production artifact")
    | some m => Except.ok (MLService.predict_multiple m history n_future.toNat)

/-- A registry with a production pair (version 1) and a staging pair
(version 2) for station 3; used to instantiate the theorems below. -/
def rBase : Registry :=
  [⟨modelName 3, 1, Stage.production⟩, ⟨scalerName 3, 1, Stage.production⟩,
   ⟨modelName 3, 2, Stage.staging⟩, ⟨scalerName 3, 2, Stage.staging⟩]

/-- A cold-start registry for station 4: staging artifacts only, nothing
at production. -/
def rCold : Registry :=
  [⟨modelName 4, 1, Stage.staging⟩, ⟨scalerName 4, 1, Stage.staging⟩]

/-- The concrete result of `predict_model_pipeline 1 2 rBase 3`. -/
def resEx : PredictResult :=
  ⟨[⟨modelName 3, 1, Stage.production⟩, ⟨scalerName 3, 1, Stage.production⟩,
    ⟨modelName 3, 2, Stage.production⟩, ⟨scalerName 3, 2, Stage.production⟩],
   ⟨[ScalerTag.candidateS],
    [(ModelTag.candidateM, ScalerTag.candidateS), (ModelTag.productionM, ScalerTag.candidateS)],
    [(ModelTag.candidateM, ScalerTag.candidateS), (ModelTag.productionM, ScalerTag.productionS)],
    [(modelName 3, 2, Stage.production), (scalerName 3, 2, Stage.production)]⟩⟩

/-- A per-station step oracle that fails exactly on station 0. -/
def stepEx : Nat → Bool := fun s => decide (s ≠ 0)

/-- A concrete production model/scaler pair for instantiating the serving
theorems: predicts the head of the (identically scaled) window. -/
def mEx : MLModel :=
  ⟨fun w => w.headD 0, fun x => x, fun x => x⟩

theorem listMax_mem {l : List Nat} {m : Nat} (h : listMax l = some m) : m ∈ l := by
  induction l generalizing m with
  | nil => simp [listMax] at h
  | cons x xs ih =>
    simp only [listMax] at h
    cases hx : listMax xs with
    | none =>
      rw [hx] at h
      simp only [Option.some.injEq] at h
      simp [h]
    | some k =>
      rw [hx] at h
      simp only [Option.some.injEq] at h
      rcases max_choice x k with hm | hm
      · rw [← h, hm]; exact List.mem_cons_self _ _
      · rw [← h, hm]; exact List.mem_cons_of_mem _ (ih hx)

theorem listMax_cons_isSome (a : Nat) (xs : List Nat) :
    ∃ m, listMax (a :: xs) = some m := by
  simp only [listMax]
  cases listMax xs with
  | none => exact ⟨a, rfl⟩
  | some k => exact ⟨max a k, rfl⟩

theorem le_listMax {l : List Nat} {x m : Nat} (hx : x ∈ l) (h : listMax l = some m) :
    x ≤ m := by
  induction l generalizing m with
  | nil => simp at hx
  | cons a xs ih =>
    simp only [listMax] at h
    rcases List.mem_cons.mp hx with rfl | hx'
    · cases hxs : listMax xs with
      | none => rw [hxs] at h; simp only [Option.some.injEq] at h; omega
      | some k =>
        rw [hxs] at h; simp only [Option.some.injEq] at h
        rw [← h]; exact le_max_left _ _
    · cases hxs : listMax xs with
      | none =>
        rcases xs with _ | ⟨b, ys⟩
        · simp at hx'
        · rcases listMax_cons_isSome b ys with ⟨m', hm'⟩
          rw [hm'] at hxs; cases hxs
      | some k =>
        rw [hxs] at h; simp only [Option.some.injEq] at h
        calc x ≤ k := ih hx' hxs
          _ ≤ m := by rw [← h]; exact le_max_right _ _

theorem getLatestVersion_mem {r : Registry} {n : String} {st : Stage} {v : Nat}
    (h : getLatestVersion r n st = some v) : (⟨n, v, st⟩ : MV) ∈ r := by
  have hv : v ∈ versionsAt r n st := listMax_mem h
  simp only [versionsAt, List.mem_map, List.mem_filter, decide_eq_true_eq] at hv
  rcases hv with ⟨mv, ⟨hmem, hname, hstage⟩, hver⟩
  rcases mv with ⟨mn, mver, mst⟩
  simp only at hname hstage hver
  rw [← hname, ← hstage, ← hver]
  exact hmem

theorem getLatestVersion_isMax {r : Registry} {n : String} {st : Stage} {v v' : Nat}
    (h : getLatestVersion r n st = some v) (h' : (⟨n, v', st⟩ : MV) ∈ r) : v' ≤ v := by
  refine le_listMax ?_ h
  simp only [versionsAt, List.mem_map]
  exact ⟨⟨n, v', st⟩, List.mem_filter.mpr ⟨h', by simp⟩, rfl⟩

theorem stageOf_transitionStage_self {r : Registry} {n : String} {v : Nat} {st0 : Stage}
    (hmem : (⟨n, v, st0⟩ : MV) ∈ r) (st : Stage) :
    stageOf (transitionStage r n v st) n v = some st := by
  induction r with
  | nil => simp at hmem
  | cons a rest ih =>
    by_cases ha : a.name = n ∧ a.version = v
    · simp only [transitionStage, stageOf, List.map_cons, if_pos ha, List.find?_cons]
      have : decide ((⟨a.name, a.version, st⟩ : MV).name = n ∧
          (⟨a.name, a.version, st⟩ : MV).version = v) = true := by
        simpa using ha
      rw [this]
      rfl
    · have hrest : (⟨n, v, st0⟩ : MV) ∈ rest := by
        rcases List.mem_cons.mp hmem with heq | h'
        · exact absurd (by rw [← heq]; exact ⟨rfl, rfl⟩) ha
        · exact h'
      simpa only [transitionStage, stageOf, List.map_cons, if_neg ha, List.find?_cons,
        show (decide (a.name = n ∧ a.version = v)) = false by simpa using ha] using ih hrest

theorem stageOf_transitionStage_other {r : Registry} {n n' : String} {v v' : Nat}
    {st' : Stage} (hne : n ≠ n') :
    stageOf (transitionStage r n' v' st') n v = stageOf r n v := by
  induction r with
  | nil => rfl
  | cons a rest ih =>
    by_cases hq : a.name = n ∧ a.version = v
    · have hnot : ¬(a.name = n' ∧ a.version = v') := fun hc => hne (hq.1 ▸ hc.1 ▸ rfl)
      simp only [transitionStage, stageOf, List.map_cons, if_neg hnot, List.find?_cons,
        show (decide (a.name = n ∧ a.version = v)) = true by simpa using hq]
    · by_cases hq' : a.name = n' ∧ a.version = v'
      · have : decide ((⟨a.name, a.version, st'⟩ : MV).name = n ∧
            (⟨a.name, a.version, st'⟩ : MV).version = v) = false := by simpa using hq
        simpa only [transitionStage, stageOf, List.map_cons, if_pos hq', List.find?_cons, this,
          show (decide (a.name = n ∧ a.version = v)) = false by simpa using hq] using ih
      · simpa only [transitionStage, stageOf, List.map_cons, if_neg hq', List.find?_cons,
          show (decide (a.name = n ∧ a.version = v)) = false by simpa using hq] using ih

theorem mem_transitionStage_of_ne {r : Registry} {n n' : String} {v v' : Nat}
    {st0 st' : Stage} (hmem : (⟨n, v, st0⟩ : MV) ∈ r) (hne : n ≠ n') :
    (⟨n, v, st0⟩ : MV) ∈ transitionStage r n' v' st' := by
  have h := List.mem_map_of_mem
    (fun mv => if mv.name = n' ∧ mv.version = v' then { mv with stage := st' } else mv) hmem
  simpa only [if_neg (show ¬((⟨n, v, st0⟩ : MV).name = n' ∧ (⟨n, v, st0⟩ : MV).version = v')
    from fun hc => hne hc.1)] using h

theorem stageOf_append_left {r l : Registry} {n : String} {v : Nat} {st : Stage}
    (h : stageOf r n v = some st) : stageOf (r ++ l) n v = some st := by
  simp only [stageOf, List.find?_append]
  cases hf : r.find? (fun mv => decide (mv.name = n ∧ mv.version = v)) with
  | none => rw [stageOf, hf] at h; cases h
  | some mv => rw [stageOf, hf] at h; simpa using h

theorem modelName_ne_scalerName (s : Nat) : modelName s ≠ scalerName s := by
  intro h
  have hl : (modelName s).length = (scalerName s).length := by rw [h]
  rw [scalerName, String.length_append] at hl
  have h7 : ("_scaler" : String).length = 7 := rfl
  omega

theorem listMax_isSome_of_mem {l : List Nat} {x : Nat} (hx : x ∈ l) :
    ∃ m, listMax l = some m := by
  cases l with
  | nil => simp at hx
  | cons a tl => exact listMax_cons_isSome a tl

theorem mem_lt_nextVersion {r : Registry} {n : String} {v : Nat} {st : Stage}
    (hmem : (⟨n, v, st⟩ : MV) ∈ r) : v < nextVersion r n := by
  have hv : v ∈ (r.filter (fun mv => decide (mv.name = n))).map MV.version := by
    simp only [List.mem_map]
    exact ⟨⟨n, v, st⟩, List.mem_filter.mpr ⟨hmem, by simp⟩, rfl⟩
  unfold nextVersion
  rcases listMax_isSome_of_mem hv with ⟨m, hm⟩
  rw [hm]
  have := le_listMax hv hm
  exact Nat.lt_succ_of_le this

theorem stageOf_eq_none_of_lt {r : Registry} {n : String} {v : Nat}
    (hlt : ∀ mv ∈ r, mv.name = n → mv.version < v) : stageOf r n v = none := by
  have hf : r.find? (fun mv => decide (mv.name = n ∧ mv.version = v)) = none := by
    rw [List.find?_eq_none]
    intro x hx
    simp only [decide_eq_true_eq, not_and]
    intro hname hver
    have := hlt x hx hname
    omega
  rw [stageOf, hf]
  rfl

/-- Claim C1: for every entity with an existing production model and
production scaler (and a registered staging candidate pair), one run of
`predict_model_pipeline` transitions the newest staging model and scaler
to production if and only if the candidate's test MSE is strictly lower
than the production model's test MSE; otherwise it performs no transition
and leaves the registry untouched. -/
theorem candidate_promoted_iff_better (mse_test mse_production : ℚ) (r : Registry) (s : Nat)
    (pm ps mv sv : Nat)
    (hpm : getLatestVersion r (modelName s) Stage.production = some pm)
    (hps : getLatestVersion r (scalerName s) Stage.production = some ps)
    (hmv : getLatestVersion r (modelName s) Stage.staging = some mv)
    (hsv : getLatestVersion r (scalerName s) Stage.staging = some sv) :
    ∃ res, predict_model_pipeline mse_test mse_production r s = some res ∧
      (res.trace.transitions ≠ [] ↔ mse_test < mse_production) ∧
      (mse_test < mse_production →
        res.trace.transitions =
          [(modelName s, mv, Stage.production), (scalerName s, sv, Stage.production)] ∧
        stageOf res.registry (modelName s) mv = some Stage.production ∧
        stageOf res.registry (scalerName s) sv = some Stage.production) ∧
      (¬ mse_test < mse_production →
        res.registry = r ∧ res.trace.transitions = []) := by
  have hup : update_production_model r s =
      some (transitionStage (transitionStage r (modelName s) mv Stage.production)
              (scalerName s) sv Stage.production,
            [(modelName s, mv, Stage.production), (scalerName s, sv, Stage.production)]) := by
    unfold update_production_model
    rw [hmv, hsv]
  by_cases hlt : mse_test < mse_production
  · refine ⟨⟨transitionStage (transitionStage r (modelName s) mv Stage.production)
        (scalerName s) sv Stage.production,
      ⟨[ScalerTag.candidateS],
       [(ModelTag.candidateM, ScalerTag.candidateS), (ModelTag.productionM, ScalerTag.candidateS)],
       [(ModelTag.candidateM, ScalerTag.candidateS), (ModelTag.productionM, ScalerTag.productionS)],
       [(modelName s, mv, Stage.production), (scalerName s, sv, Stage.production)]⟩⟩,
      ?_, ?_, ?_, ?_⟩
    · simp only [predict_model_pipeline, hmv, hsv, hpm, hps, hup, Option.isNone_some,
        Bool.or_self, Bool.false_eq_true, if_false, if_pos hlt, List.singleton_append]
    · simp [hlt]
    · intro _
      refine ⟨rfl, ?_, ?_⟩
      · rw [stageOf_transitionStage_other (modelName_ne_scalerName s)]
        exact stageOf_transitionStage_self (getLatestVersion_mem hmv) Stage.production
      · exact stageOf_transitionStage_self
          (mem_transitionStage_of_ne (getLatestVersion_mem hsv)
            (fun h => modelName_ne_scalerName s h.symm)) Stage.production
    · intro h
      exact absurd hlt h
  · refine ⟨⟨r,
      ⟨[ScalerTag.candidateS],
       [(ModelTag.candidateM, ScalerTag.candidateS), (ModelTag.productionM, ScalerTag.candidateS)],
       [(ModelTag.candidateM, ScalerTag.candidateS), (ModelTag.productionM, ScalerTag.productionS)],
       []⟩⟩, ?_, ?_, ?_, ?_⟩
    · simp only [predict_model_pipeline, hmv, hsv, hpm, hps, Option.isNone_some,
        Bool.or_self, Bool.false_eq_true, if_false, if_neg hlt, List.singleton_append]
    · simp [hlt]
    · intro h
      exact absurd h hlt
    · intro _
      exact ⟨rfl, rfl⟩

/-- Claim C2: for every entity for which no production model or no
production scaler exists (cold start), one run of the promotion pipeline
unconditionally (for any metric values) transitions the newest staging
versions of both the model and the scaler to production, and never
evaluates a production baseline. -/
theorem cold_start_promotes (mse_test mse_production : ℚ) (r : Registry) (s : Nat)
    (mv sv : Nat)
    (hnobase : getLatestVersion r (modelName s) Stage.production = none ∨
               getLatestVersion r (scalerName s) Stage.production = none)
    (hmv : getLatestVersion r (modelName s) Stage.staging = some mv)
    (hsv : getLatestVersion r (scalerName s) Stage.staging = some sv) :
    ∃ res, predict_model_pipeline mse_test mse_production r s = some res ∧
      res.trace.transitions =
        [(modelName s, mv, Stage.production), (scalerName s, sv, Stage.production)] ∧
      stageOf res.registry (modelName s) mv = some Stage.production ∧
      stageOf res.registry (scalerName s) sv = some Stage.production ∧
      (∀ p ∈ res.trace.evalScalers, p.1 = ModelTag.candidateM) ∧
      (∀ v', (⟨modelName s, v', Stage.staging⟩ : MV) ∈ r → v' ≤ mv) ∧
      (∀ v', (⟨scalerName s, v', Stage.staging⟩ : MV) ∈ r → v' ≤ sv) := by
  have hup : update_production_model r s =
      some (transitionStage (transitionStage r (modelName s) mv Stage.production)
              (scalerName s) sv Stage.production,
            [(modelName s, mv, Stage.production), (scalerName s, sv, Stage.production)]) := by
    unfold update_production_model
    rw [hmv, hsv]
  refine ⟨⟨transitionStage (transitionStage r (modelName s) mv Stage.production)
        (scalerName s) sv Stage.production,
      ⟨[ScalerTag.candidateS],
       [(ModelTag.candidateM, ScalerTag.candidateS)],
       [(ModelTag.candidateM, ScalerTag.candidateS)],
       [(modelName s, mv, Stage.production), (scalerName s, sv, Stage.production)]⟩⟩,
      ?_, rfl, ?_, ?_, ?_, ?_, ?_⟩
  · rcases hnobase with hno | hno
    · simp only [predict_model_pipeline, hmv, hsv, hno, hup, Option.isNone_none,
        Bool.true_or, if_true]
    · simp only [predict_model_pipeline, hmv, hsv, hno, hup, Option.isNone_none,
        Bool.or_true, if_true]
  · rw [stageOf_transitionStage_other (modelName_ne_scalerName s)]
    exact stageOf_transitionStage_self (getLatestVersion_mem hmv) Stage.production
  · exact stageOf_transitionStage_self
      (mem_transitionStage_of_ne (getLatestVersion_mem hsv)
        (fun h => modelName_ne_scalerName s h.symm)) Stage.production
  · intro p hp
    simp only [List.mem_singleton] at hp
    rw [hp]
  · intro v' h'
    exact getLatestVersion_isMax hmv h'
  · intro v' h'
    exact getLatestVersion_isMax hsv h'

/-- Claim C3: model and scaler promotion are atomic as a pair: in every
successful run of the promotion pipeline, a model version is transitioned
to production exactly when the paired scaler version is transitioned to
production in the same run. -/
theorem promotion_atomic (mse_test mse_production : ℚ) (r : Registry) (s : Nat)
    (res : PredictResult)
    (h : predict_model_pipeline mse_test mse_production r s = some res) :
    ((∃ v, (modelName s, v, Stage.production) ∈ res.trace.transitions) ↔
     (∃ v, (scalerName s, v, Stage.production) ∈ res.trace.transitions)) := by
  cases hA : getLatestVersion r (modelName s) Stage.staging with
  | none =>
    simp only [predict_model_pipeline, hA] at h
    exact Option.noConfusion h
  | some mv =>
    cases hB : getLatestVersion r (scalerName s) Stage.staging with
    | none =>
      simp only [predict_model_pipeline, hA, hB] at h
      exact Option.noConfusion h
    | some sv =>
      have hup : update_production_model r s =
          some (transitionStage (transitionStage r (modelName s) mv Stage.production)
                  (scalerName s) sv Stage.production,
                [(modelName s, mv, Stage.production), (scalerName s, sv, Stage.production)]) := by
        unfold update_production_model
        rw [hA, hB]
      simp only [predict_model_pipeline, hA, hB, hup] at h
      split at h
      · cases h
        constructor
        · intro _
          exact ⟨sv, by simp⟩
        · intro _
          exact ⟨mv, by simp⟩
      · split at h
        · cases h
          constructor
          · intro _
            exact ⟨sv, by simp⟩
          · intro _
            exact ⟨mv, by simp⟩
        · cases h
          constructor
          · rintro ⟨v, hv⟩
            simp at hv
          · rintro ⟨v, hv⟩
            simp at hv

/-- Claim C4: for every entity with an existing production model and
scaler, if the candidate's test MSE is equal to or higher than the
production model's, the pipeline performs no stage transition and the
registry is left exactly as it was. -/
theorem no_promotion_on_tie_or_worse (mse_test mse_production : ℚ) (r : Registry) (s : Nat)
    (pm ps mv sv : Nat)
    (hpm : getLatestVersion r (modelName s) Stage.production = some pm)
    (hps : getLatestVersion r (scalerName s) Stage.production = some ps)
    (hmv : getLatestVersion r (modelName s) Stage.staging = some mv)
    (hsv : getLatestVersion r (scalerName s) Stage.staging = some sv)
    (hge : ¬ mse_test < mse_production) :
    ∃ res, predict_model_pipeline mse_test mse_production r s = some res ∧
      res.registry = r ∧ res.trace.transitions = [] := by
  refine ⟨⟨r,
      ⟨[ScalerTag.candidateS],
       [(ModelTag.candidateM, ScalerTag.candidateS), (ModelTag.productionM, ScalerTag.candidateS)],
       [(ModelTag.candidateM, ScalerTag.candidateS), (ModelTag.productionM, ScalerTag.productionS)],
       []⟩⟩, ?_, rfl, rfl⟩
  simp only [predict_model_pipeline, hmv, hsv, hpm, hps, Option.isNone_some,
    Bool.or_self, Bool.false_eq_true, if_false, if_neg hge, List.singleton_append]

/-- Claim C9: in the baseline-exists branch, `prepare_model_data` is
called exactly once, with the staging (candidate) scaler; every
`model.predict` call — the production model's included — receives the
`X_test` prepared with the candidate scaler; and the production scaler is
used only as the inverse-transform argument of the production metric
evaluation. -/
theorem production_eval_dataflow (mse_test mse_production : ℚ) (r : Registry) (s : Nat)
    (pm ps mv sv : Nat)
    (hpm : getLatestVersion r (modelName s) Stage.production = some pm)
    (hps : getLatestVersion r (scalerName s) Stage.production = some ps)
    (hmv : getLatestVersion r (modelName s) Stage.staging = some mv)
    (hsv : getLatestVersion r (scalerName s) Stage.staging = some sv) :
    ∃ res, predict_model_pipeline mse_test mse_production r s = some res ∧
      res.trace.prepareScalers = [ScalerTag.candidateS] ∧
      res.trace.predictCalls =
        [(ModelTag.candidateM, ScalerTag.candidateS),
         (ModelTag.productionM, ScalerTag.candidateS)] ∧
      res.trace.evalScalers =
        [(ModelTag.candidateM, ScalerTag.candidateS),
         (ModelTag.productionM, ScalerTag.productionS)] ∧
      (∀ p ∈ res.trace.predictCalls, p.2 = ScalerTag.candidateS) := by
  have hup : update_production_model r s =
      some (transitionStage (transitionStage r (modelName s) mv Stage.production)
              (scalerName s) sv Stage.production,
            [(modelName s, mv, Stage.production), (scalerName s, sv, Stage.production)]) := by
    unfold update_production_model
    rw [hmv, hsv]
  by_cases hlt : mse_test < mse_production
  · refine ⟨⟨transitionStage (transitionStage r (modelName s) mv Stage.production)
        (scalerName s) sv Stage.production,
      ⟨[ScalerTag.candidateS],
       [(ModelTag.candidateM, ScalerTag.candidateS), (ModelTag.productionM, ScalerTag.candidateS)],
       [(ModelTag.candidateM, ScalerTag.candidateS), (ModelTag.productionM, ScalerTag.productionS)],
       [(modelName s, mv, Stage.production), (scalerName s, sv, Stage.production)]⟩⟩,
      ?_, rfl, rfl, rfl, ?_⟩
    · simp only [predict_model_pipeline, hmv, hsv, hpm, hps, hup, Option.isNone_some,
        Bool.or_self, Bool.false_eq_true, if_false, if_pos hlt, List.singleton_append]
    · intro p hp
      rcases List.mem_cons.mp hp with h1 | h1
      · rw [h1]
      · rw [List.mem_singleton.mp h1]
  · refine ⟨⟨r,
      ⟨[ScalerTag.candidateS],
       [(ModelTag.candidateM, ScalerTag.candidateS), (ModelTag.productionM, ScalerTag.candidateS)],
       [(ModelTag.candidateM, ScalerTag.candidateS), (ModelTag.productionM, ScalerTag.productionS)],
       []⟩⟩, ?_, rfl, rfl, rfl, ?_⟩
    · simp only [predict_model_pipeline, hmv, hsv, hpm, hps, Option.isNone_some,
        Bool.or_self, Bool.false_eq_true, if_false, if_neg hlt, List.singleton_append]
    · intro p hp
      rcases List.mem_cons.mp hp with h1 | h1
      · rw [h1]
      · rw [List.mem_singleton.mp h1]

/-- Claim C7: one run of the training pipeline registers a fresh model
version and a fresh scaler version (the scaler under the model's registry
name plus the suffix "_scaler") and transitions both new versions to
staging; every stage transition the run performs targets staging, never
production. -/
theorem training_registers_staging_pair (r : Registry) (s : Nat) :
    (train_model_pipeline r s).transitions =
      [(modelName s, (train_model_pipeline r s).modelVersion, Stage.staging),
       (scalerName s, (train_model_pipeline r s).scalerVersion, Stage.staging)] ∧
    scalerName s = modelName s ++ "_scaler" ∧
    stageOf (train_model_pipeline r s).registry (modelName s)
      (train_model_pipeline r s).modelVersion = some Stage.staging ∧
    stageOf (train_model_pipeline r s).registry (scalerName s)
      (train_model_pipeline r s).scalerVersion = some Stage.staging ∧
    stageOf r (modelName s) (train_model_pipeline r s).modelVersion = none ∧
    stageOf r (scalerName s) (train_model_pipeline r s).scalerVersion = none ∧
    (∀ t ∈ (train_model_pipeline r s).transitions, t.2.2 = Stage.staging) := by
  have hMS : modelName s ≠ scalerName s := modelName_ne_scalerName s
  refine ⟨rfl, rfl, ?_, ?_, ?_, ?_, ?_⟩
  · simp only [train_model_pipeline, create_model_version]
    rw [stageOf_transitionStage_other hMS]
    exact stageOf_append_left (stageOf_append_left
      (stageOf_transitionStage_self
        (List.mem_append_right _ (List.mem_singleton.mpr rfl)) Stage.staging))
  · simp only [train_model_pipeline, create_model_version]
    exact stageOf_transitionStage_self
      (List.mem_append_right _ (List.mem_singleton.mpr rfl)) Stage.staging
  · simp only [train_model_pipeline, create_model_version]
    apply stageOf_eq_none_of_lt
    intro mvx hx hname
    rcases mvx with ⟨mn, mver, mst⟩
    simp only at hname
    subst hname
    exact mem_lt_nextVersion (List.mem_append_left _ hx)
  · simp only [train_model_pipeline, create_model_version]
    apply stageOf_eq_none_of_lt
    intro mvx hx hname
    rcases mvx with ⟨mn, mver, mst⟩
    simp only at hname
    subst hname
    exact mem_lt_nextVersion (List.mem_append_left _
      (mem_transitionStage_of_ne (List.mem_append_left _ (List.mem_append_left _ hx))
        (fun h => hMS h.symm)))
  · intro t ht
    simp only [train_model_pipeline] at ht
    rcases List.mem_cons.mp ht with h1 | h1
    · rw [h1]
    · rw [List.mem_singleton.mp h1]

theorem mlPredictTrace_length (m : MLModel) : ∀ (n : Nat) (w : List ℚ),
    (mlPredictTrace m w n).length = n := by
  intro n
  induction n with
  | zero => intro w; rfl
  | succ k ih =>
    intro w
    simp only [mlPredictTrace, List.length_cons, ih]

theorem mlPredictTrace_pred (m : MLModel) : ∀ (n : Nat) (w : List ℚ),
    ∀ e ∈ mlPredictTrace m w n, e.2 = m.invScale (m.predictOne (e.1.map m.scale)) := by
  intro n
  induction n with
  | zero =>
    intro w e he
    simp [mlPredictTrace] at he
  | succ k ih =>
    intro w e he
    simp only [mlPredictTrace] at he
    rcases List.mem_cons.mp he with h1 | h1
    · rw [h1]
    · exact ih _ e h1

theorem mlPredictTrace_window (m : MLModel) : ∀ (n : Nat) (w : List ℚ), w ≠ [] →
    ∀ i, i < n →
      ((mlPredictTrace m w n).getD i ([], 0)).1 =
        (w ++ ((mlPredictTrace m w n).map Prod.snd).take i).drop i := by
  intro n
  induction n with
  | zero =>
    intro w hw i hi
    omega
  | succ k ih =>
    intro w hw i hi
    simp only [mlPredictTrace]
    cases i with
    | zero => simp
    | succ j =>
      have hj : j < k := Nat.lt_of_succ_lt_succ hi
      have hw' : w.drop 1 ++ [m.invScale (m.predictOne (w.map m.scale))] ≠ [] := by
        simp
      have hrec := ih (w.drop 1 ++ [m.invScale (m.predictOne (w.map m.scale))]) hw' j hj
      simp only [List.getD_cons_succ, List.map_cons, List.take_succ_cons]
      rw [hrec]
      rcases w with _ | ⟨a, w'⟩
      · exact absurd rfl hw
      · simp only [List.drop_succ_cons, List.drop_one, List.tail_cons, List.cons_append]
        rw [List.append_assoc]
        rfl

/-- Claim C8: for every valid request (horizon 1..7, valid station, an
existing production model/scaler pair, nonempty history), the endpoint
returns exactly N forecast points, the points of the spec-modelled
multi-step forecaster in order; each point is predicted from its step's
window, and the window of step i is the original history shifted i steps
forward with the forecaster's own prior outputs appended — so every point
after the first is predicted from a window whose most recent entries are
prior forecast outputs, not ground truth. -/
theorem multi_step_forecast (m : MLModel) (history : List ℚ)
    (station_number n_future : Int)
    (hst : 0 ≤ station_number ∧ station_number ≤ 29)
    (hn : 1 ≤ n_future ∧ n_future ≤ 7)
    (hhist : history ≠ []) :
    ∃ out, predict_multiple (some m) history station_number n_future = Except.ok out ∧
      out = (mlPredictTrace m history n_future.toNat).map Prod.snd ∧
      out.length = n_future.toNat ∧
      (∀ e ∈ mlPredictTrace m history n_future.toNat,
        e.2 = m.invScale (m.predictOne (e.1.map m.scale))) ∧
      (∀ i, i < n_future.toNat →
        ((mlPredictTrace m history n_future.toNat).getD i ([], 0)).1 =
          (history ++ out.take i).drop i) := by
  have hval : validateRequest station_number n_future = none := by
    unfold validateRequest
    rw [if_neg (by omega), if_neg (by omega), if_neg (by omega)]
  refine ⟨MLService.predict_multiple m history n_future.toNat, ?_, rfl, ?_, ?_, ?_⟩
  · unfold predict_multiple
    rw [hval]
  · unfold MLService.predict_multiple
    rw [List.length_map]
    exact mlPredictTrace_length m _ _
  · exact mlPredictTrace_pred m _ _
  · intro i hi
    exact mlPredictTrace_window m _ _ hhist i hi

/-- Claim C6: with a valid station, the `predict_multiple` endpoint
accepts exactly the horizons 1 through 7; any lower horizon is rejected
with the 400 error "n_future must be greater than 0" and any higher one
with the 400 error "n_future must be less than 8", in both cases before
any prediction work (for every model pair and history alike). -/
theorem horizon_bounds (station_number : Int)
    (hst : 0 ≤ station_number ∧ station_number ≤ 29) (n_future : Int) :
    (validateRequest station_number n_future = none ↔ 1 ≤ n_future ∧ n_future ≤ 7) ∧
    (n_future < 1 → ∀ svc history, predict_multiple svc history station_number n_future =
      Except.error (400, "n_future must be greater than 0")) ∧
    (7 < n_future → ∀ svc history, predict_multiple svc history station_number n_future =
      Except.error (400, "n_future must be less than 8")) := by
  refine ⟨⟨?_, ?_⟩, ?_, ?_⟩
  · intro h
    by_contra hc
    unfold validateRequest at h
    rcases lt_or_ge n_future 1 with h1 | h1
    · rw [if_pos h1] at h
      cases h
    · have h7 : 7 < n_future := by omega
      rw [if_neg (by omega), if_pos h7] at h
      cases h
  · intro hok
    unfold validateRequest
    rw [if_neg (by omega), if_neg (by omega), if_neg (by omega)]
  · intro hlt svc history
    unfold predict_multiple validateRequest
    rw [if_pos hlt]
  · intro hgt svc history
    unfold predict_multiple validateRequest
    rw [if_neg (by omega), if_pos hgt]

/-- Claim C10: with a valid horizon, the endpoint accepts exactly the
stations 0 through 29 and rejects all others with a 400 error whose
message nevertheless reads "station_number must be between 0 and 28"; in
particular station 29 passes validation. -/
theorem station_bounds (n_future : Int) (hn : 1 ≤ n_future ∧ n_future ≤ 7) :
    (∀ station_number : Int,
      validateRequest station_number n_future = none ↔
        0 ≤ station_number ∧ station_number ≤ 29) ∧
    validateRequest 29 n_future = none ∧
    validateRequest 30 n_future = some "station_number must be between 0 and 28" ∧
    (∀ station_number : Int, ¬(0 ≤ station_number ∧ station_number ≤ 29) →
      ∀ svc history, predict_multiple svc history station_number n_future =
        Except.error (400, "station_number must be between 0 and 28")) := by
  refine ⟨?_, ?_, ?_, ?_⟩
  · intro station_number
    constructor
    · intro h
      by_contra hc
      unfold validateRequest at h
      rw [if_neg (by omega), if_neg (by omega), if_pos (by omega)] at h
      cases h
    · intro hok
      unfold validateRequest
      rw [if_neg (by omega), if_neg (by omega), if_neg (by omega)]
  · unfold validateRequest
    rw [if_neg (by omega), if_neg (by omega), if_neg (by omega)]
  · unfold validateRequest
    rw [if_neg (by omega), if_neg (by omega), if_pos (by omega)]
  · intro station_number hbad svc history
    unfold predict_multiple validateRequest
    rw [if_neg (by omega), if_neg (by omega), if_pos (by omega)]

/-- Claim C5 (amended): the batch loop over stations has no per-entity
failure isolation — when the pipeline for one station fails, the loop
halts there: the stations before the failing one and the failing one
itself ran, and no station after it is processed. -/
theorem batch_loop_halts_on_failure (step : Nat → Bool) (pre post : List Nat) (f : Nat)
    (hpre : ∀ s ∈ pre, step s = true) (hf : step f = false) :
    batchMainLoop step (pre ++ f :: post) = (pre ++ [f], false) := by
  induction pre with
  | nil =>
    simp [batchMainLoop, hf]
  | cons a t ih =>
    have ha : step a = true := hpre a (List.mem_cons_self a t)
    have hrec : batchMainLoop step (t.append (f :: post)) = (t ++ [f], false) :=
      ih (fun x hx => hpre x (List.mem_cons_of_mem a hx))
    simp only [List.cons_append, batchMainLoop, ha, if_true, hrec]

/-- Claim C5, counterexample to the claim as stated: with a step oracle
that fails on station 0, running the batch loop over stations [0, 1]
invokes only station 0's cycle — station 1, although in the batch, is
never run, so a failure in one entity does halt the loop. -/
theorem batch_loop_not_isolated :
    stepEx 0 = false ∧ (0 : Nat) ∈ [0, 1] ∧ (1 : Nat) ∈ [0, 1] ∧
    batchMainLoop stepEx [0, 1] = ([0], false) ∧
    (1 : Nat) ∉ (batchMainLoop stepEx [0, 1]).1 := by
  decide

/-- Claim C1, witness: concrete instance at station 3, candidate MSE 1
against production MSE 2. -/
theorem candidate_promoted_iff_better_witness :
    ∃ res, predict_model_pipeline 1 2 rBase 3 = some res ∧
      (res.trace.transitions ≠ [] ↔ (1 : ℚ) < 2) ∧
      ((1 : ℚ) < 2 →
        res.trace.transitions =
          [(modelName 3, 2, Stage.production), (scalerName 3, 2, Stage.production)] ∧
        stageOf res.registry (modelName 3) 2 = some Stage.production ∧
        stageOf res.registry (scalerName 3) 2 = some Stage.production) ∧
      (¬ (1 : ℚ) < 2 → res.registry = rBase ∧ res.trace.transitions = []) :=
  candidate_promoted_iff_better 1 2 rBase 3 1 1 2 2
    (by decide) (by decide) (by decide) (by decide)

/-- Claim C2, witness: concrete cold-start instance at station 4. -/
theorem cold_start_promotes_witness :
    ∃ res, predict_model_pipeline 3 5 rCold 4 = some res ∧
      res.trace.transitions =
        [(modelName 4, 1, Stage.production), (scalerName 4, 1, Stage.production)] ∧
      stageOf res.registry (modelName 4) 1 = some Stage.production ∧
      stageOf res.registry (scalerName 4) 1 = some Stage.production ∧
      (∀ p ∈ res.trace.evalScalers, p.1 = ModelTag.candidateM) ∧
      (∀ v', (⟨modelName 4, v', Stage.staging⟩ : MV) ∈ rCold → v' ≤ 1) ∧
      (∀ v', (⟨scalerName 4, v', Stage.staging⟩ : MV) ∈ rCold → v' ≤ 1) :=
  cold_start_promotes 3 5 rCold 4 1 1 (Or.inl (by decide)) (by decide) (by decide)

/-- Claim C3, witness: concrete promoted run at station 3. -/
theorem promotion_atomic_witness :
    ((∃ v, (modelName 3, v, Stage.production) ∈ resEx.trace.transitions) ↔
     (∃ v, (scalerName 3, v, Stage.production) ∈ resEx.trace.transitions)) :=
  promotion_atomic 1 2 rBase 3 resEx (by decide)

/-- Claim C4, witness: concrete tie (candidate MSE 2 equals production
MSE 2) at station 3. -/
theorem no_promotion_on_tie_or_worse_witness :
    ∃ res, predict_model_pipeline 2 2 rBase 3 = some res ∧
      res.registry = rBase ∧ res.trace.transitions = [] :=
  no_promotion_on_tie_or_worse 2 2 rBase 3 1 1 2 2
    (by decide) (by decide) (by decide) (by decide) (by decide)

/-- Claim C5, witness for the amended theorem: station 1 succeeds,
station 0 fails, station 2 is never reached. -/
theorem batch_loop_halts_on_failure_witness :
    batchMainLoop stepEx ([1] ++ 0 :: [2]) = ([1] ++ [0], false) :=
  batch_loop_halts_on_failure stepEx [1] [2] 0 (by decide) (by decide)

/-- Claim C6, witness: horizon 7 with valid station 5 passes validation. -/
theorem horizon_bounds_witness : validateRequest 5 7 = none :=
  (horizon_bounds 5 (by decide) 7).1.mpr (by decide)

/-- Claim C8, witness: concrete forecast of horizon 7 from history
[1, 2, 3] at station 5. -/
theorem multi_step_forecast_witness :
    ∃ out, predict_multiple (some mEx) [1, 2, 3] 5 7 = Except.ok out ∧
      out = (mlPredictTrace mEx [1, 2, 3] (7 : Int).toNat).map Prod.snd ∧
      out.length = (7 : Int).toNat ∧
      (∀ e ∈ mlPredictTrace mEx [1, 2, 3] (7 : Int).toNat,
        e.2 = mEx.invScale (mEx.predictOne (e.1.map mEx.scale))) ∧
      (∀ i, i < (7 : Int).toNat →
        ((mlPredictTrace mEx [1, 2, 3] (7 : Int).toNat).getD i ([], 0)).1 =
          ([1, 2, 3] ++ out.take i).drop i) :=
  multi_step_forecast mEx [1, 2, 3] 5 7 (by decide) (by decide) (by decide)

/-- Claim C9, witness: concrete baseline-exists run at station 3. -/
theorem production_eval_dataflow_witness :
    ∃ res, predict_model_pipeline 1 2 rBase 3 = some res ∧
      res.trace.prepareScalers = [ScalerTag.candidateS] ∧
      res.trace.predictCalls =
        [(ModelTag.candidateM, ScalerTag.candidateS),
         (ModelTag.productionM, ScalerTag.candidateS)] ∧
      res.trace.evalScalers =
        [(ModelTag.candidateM, ScalerTag.candidateS),
         (ModelTag.productionM, ScalerTag.productionS)] ∧
      (∀ p ∈ res.trace.predictCalls, p.2 = ScalerTag.candidateS) :=
  production_eval_dataflow 1 2 rBase 3 1 1 2 2
    (by decide) (by decide) (by decide) (by decide)

/-- Claim C10, witness: with horizon 1, station 29 passes validation while
station 30 is rejected with the off-by-one message. -/
theorem station_bounds_witness :
    validateRequest 29 1 = none ∧
    validateRequest 30 1 = some "station_number must be between 0 and 28" :=
  ⟨(station_bounds 1 (by decide)).2.1, (station_bounds 1 (by decide)).2.2.1⟩
